import Mathlib

/-!
# Verification of the snarkVM inclusion / process / finalize subsystem

A shallow embedding of the Rust sources:

* `src/synthesizer/src/process/trace/inclusion/mod.rs`
  (`Inclusion::insert_transition`, `Inclusion::prepare_verifier_inputs`,
  `InclusionAssignment::to_circuit_assignment`),
* `src/synthesizer/src/process/deploy.rs` (`Process::load_deployment`),
* `src/synthesizer/src/process/stack/authorize.rs` (`Stack::authorize`),
* `src/synthesizer/src/program/finalize/command/mod.rs` (`Command::finalize`),
* `src/circuit/program/src/data/record/to_bits.rs` (`Record::to_bits_le`/`to_bits_be`),

followed by theorems settling the specification claims.  Cryptographic hash,
Merkle-tree, field and signing primitives are external collaborators of the
sources; they appear as abstract type and function parameters.
-/

namespace SnarkVM

/-! ## Inclusion tracker data model

From `inclusion/mod.rs`.  Field elements, group elements, transition ids and
transition-leaf values stay abstract (`F`, `G`, `TID`, `L`).  The Rust
`HashMap`s are modelled as association lists: `insert` replaces the binding
of an existing key and appends a new one otherwise, `contains_key` is a key
scan, and `entry(..).or_default()` extends the bound list in place.
-/

/-- Assoc-list insert, replacing an existing binding for the key
(`HashMap::insert` semantics, ignoring the returned old value). -/
def assocInsert {α β : Type} [DecidableEq α] (m : List (α × β)) (k : α) (v : β) :
    List (α × β) :=
  match m with
  | [] => [(k, v)]
  | (k', v') :: rest =>
      if k' = k then (k, v) :: rest else (k', v') :: assocInsert rest k v

/-- Assoc-list key membership (`HashMap::contains_key`). -/
def assocContains {α β : Type} [DecidableEq α] (m : List (α × β)) (k : α) : Bool :=
  m.any (fun p => p.1 = k)

/-- Assoc-list lookup (`HashMap::get`). -/
def assocLookup {α β : Type} [DecidableEq α] (m : List (α × β)) (k : α) : Option β :=
  match m with
  | [] => none
  | (k', v') :: rest => if k' = k then some v' else assocLookup rest k

/-- `entry(k).or_default()` followed by `extend(vs)`: append `vs` to the list
bound at `k`, binding `k` to `vs` if absent. -/
def assocExtend {α β : Type} [DecidableEq α] (m : List (α × List β)) (k : α)
    (vs : List β) : List (α × List β) :=
  match m with
  | [] => [(k, vs)]
  | (k', v') :: rest =>
      if k' = k then (k, v' ++ vs) :: rest else (k', v') :: assocExtend rest k vs

/-- `InputID`: the tracker only distinguishes the `Record(commitment, gamma,
serial_number, ..)` variant; every other variant is inert here. -/
inductive InputID (F G : Type) where
  | record (commitment : F) (gamma : G) (serial_number : F) : InputID F G
  | other : InputID F G
deriving DecidableEq

/-- Transition `Input`: `prepare_verifier_inputs` matches
`Input::Record(serial_number, _)`; other variants are inert. -/
inductive Input (F : Type) where
  | record (serial_number : F) : Input F
  | other : Input F
deriving DecidableEq

/-- Transition `Output`: `insert_transition` matches
`Output::Record(commitment, ..)`; other variants are inert. -/
inductive Output (F : Type) where
  | record (commitment : F) : Output F
  | other : Output F
deriving DecidableEq

/-- A transition: identifier, ordered inputs, ordered outputs. -/
structure Transition (TID F : Type) where
  id : TID
  inputs : List (Input F)
  outputs : List (Output F)
deriving DecidableEq

/-- `InputTask` from `inclusion/mod.rs` lines 33–45. -/
structure InputTask (F G L : Type) where
  commitment : F
  gamma : G
  serial_number : F
  leaf : L
  is_local : Bool
deriving DecidableEq

/-- `Inclusion` tracker state from `inclusion/mod.rs` lines 47–53. -/
structure Inclusion (TID F G L : Type) where
  input_tasks : List (TID × List (InputTask F G L))
  output_commitments : List (F × (TID × Nat))
deriving DecidableEq

/-- `Inclusion::new`. -/
def Inclusion.new (TID F G L : Type) : Inclusion TID F G L :=
  { input_tasks := [], output_commitments := [] }

/-- The input tasks one `insert_transition` call pushes: the record-typed
input ids, each paired with its enumeration index, with `is_local` probed
against the output-commitment index as it stands on entry (the Rust loop
reads `self.output_commitments` before the outputs of this transition are
inserted).  `toLeaf` abstracts `input.to_transition_leaf(index as u8)`. -/
def stepTasks {TID F G L : Type} [DecidableEq F]
    (prior : Inclusion TID F G L) (toLeaf : Input F → Nat → L)
    (input_ids : List (InputID F G)) (t : Transition TID F) :
    List (InputTask F G L) :=
  (t.inputs.zip input_ids).enum.filterMap fun p =>
    match p.2.2 with
    | InputID.record c g sn =>
        some { commitment := c, gamma := g, serial_number := sn,
               leaf := toLeaf p.2.1 (p.1 % 256),
               is_local := assocContains prior.output_commitments c }
    | InputID.other => none

/-- The output loop of `insert_transition`: index every record-typed output
commitment at its absolute leaf index `(input_ids.len() + index) as u8`. -/
def insertOutputs {TID F : Type} [DecidableEq F]
    (m : List (F × (TID × Nat))) (numInputs : Nat) (tid : TID)
    (outputs : List (Nat × Output F)) : List (F × (TID × Nat)) :=
  outputs.foldl
    (fun m p =>
      match p.2 with
      | Output.record c => assocInsert m c (tid, (numInputs + p.1) % 256)
      | Output.other => m)
    m

/-- `Inclusion::insert_transition` (`inclusion/mod.rs` lines 62–96): check
the arity of `input_ids` against the transition inputs, push an `InputTask`
per record-typed input, then index the record-typed output commitments. -/
def Inclusion.insert_transition {TID F G L : Type} [DecidableEq F] [DecidableEq TID]
    (self : Inclusion TID F G L) (toLeaf : Input F → Nat → L)
    (input_ids : List (InputID F G)) (t : Transition TID F) :
    Except String (Inclusion TID F G L) :=
  if input_ids.length ≠ t.inputs.length then
    Except.error "Inclusion expected the same number of input IDs as transition inputs"
  else
    Except.ok
      { input_tasks := assocExtend self.input_tasks t.id (stepTasks self toLeaf input_ids t)
        output_commitments :=
          insertOutputs self.output_commitments input_ids.length t.id t.outputs.enum }

/-- Fold `insert_transition` over a transaction's transitions in execution
order, starting from `Inclusion::new`-style state `s`. -/
def insertAll {TID F G L : Type} [DecidableEq F] [DecidableEq TID]
    (toLeaf : Input F → Nat → L) (s : Inclusion TID F G L)
    (l : List (List (InputID F G) × Transition TID F)) :
    Except String (Inclusion TID F G L) :=
  match l with
  | [] => Except.ok s
  | (ids, t) :: rest =>
      match s.insert_transition toLeaf ids t with
      | Except.ok s' => insertAll toLeaf s' rest
      | Except.error e => Except.error e

/-- The commitments of a transition's record-typed outputs, in order. -/
def recordOutputs {TID F : Type} (t : Transition TID F) : List F :=
  t.outputs.filterMap fun o =>
    match o with
    | Output.record c => some c
    | Output.other => none

/-! ### Lemmas about the tracker state -/

theorem assocContains_assocInsert_iff {α β : Type} [DecidableEq α]
    (m : List (α × β)) (k x : α) (v : β) :
    assocContains (assocInsert m k v) x = true ↔
      (assocContains m x = true ∨ x = k) := by
  induction m with
  | nil =>
      simp [assocInsert, assocContains, eq_comm]
  | cons p rest ih =>
      obtain ⟨k', v'⟩ := p
      simp only [assocInsert]
      by_cases h : k' = k
      · subst h
        rw [if_pos rfl]
        simp only [assocContains, List.any_cons, Bool.or_eq_true,
          decide_eq_true_eq]
        constructor
        · rintro (h | h)
          · exact Or.inl (Or.inl h)
          · exact Or.inl (Or.inr h)
        · rintro ((h | h) | h)
          · exact Or.inl h
          · exact Or.inr h
          · exact Or.inl h.symm
      · simp only [if_neg h, assocContains, List.any_cons, Bool.or_eq_true,
          decide_eq_true_eq] at ih ⊢
        tauto

theorem assocContains_insertOutputs_iff {TID F : Type} [DecidableEq F]
    (m : List (F × (TID × Nat))) (n : Nat) (tid : TID)
    (outs : List (Nat × Output F)) (x : F) :
    assocContains (insertOutputs m n tid outs) x = true ↔
      (assocContains m x = true ∨
        x ∈ outs.filterMap (fun p =>
          match p.2 with
          | Output.record c => some c
          | Output.other => none)) := by
  induction outs generalizing m with
  | nil => simp [insertOutputs]
  | cons p rest ih =>
      obtain ⟨i, o⟩ := p
      cases o with
      | record c =>
          simp only [insertOutputs, List.foldl_cons] at ih ⊢
          rw [ih]
          simp only [assocContains_assocInsert_iff, List.filterMap_cons,
            List.mem_cons]
          tauto
      | other =>
          simp only [insertOutputs, List.foldl_cons] at ih ⊢
          rw [ih]
          simp [List.filterMap_cons]

theorem filterMap_outputs_enumFrom {F : Type} (n : Nat) (l : List (Output F)) :
    (List.enumFrom n l).filterMap (fun p =>
        match p.2 with
        | Output.record c => some c
        | Output.other => none) =
      l.filterMap (fun o =>
        match o with
        | Output.record c => some c
        | Output.other => none) := by
  induction l generalizing n with
  | nil => rfl
  | cons a l ih =>
      cases a <;> simp [List.enumFrom, List.filterMap_cons, ih]

theorem filterMap_outputs_enum {TID F : Type} (t : Transition TID F) :
    t.outputs.enum.filterMap (fun p =>
        match p.2 with
        | Output.record c => some c
        | Output.other => none) = recordOutputs t :=
  filterMap_outputs_enumFrom 0 t.outputs

theorem insert_transition_ok {TID F G L : Type} [DecidableEq F] [DecidableEq TID]
    (self : Inclusion TID F G L) (toLeaf : Input F → Nat → L)
    (input_ids : List (InputID F G)) (t : Transition TID F)
    (s' : Inclusion TID F G L)
    (h : self.insert_transition toLeaf input_ids t = Except.ok s') :
    s'.input_tasks = assocExtend self.input_tasks t.id (stepTasks self toLeaf input_ids t)
    ∧ s'.output_commitments =
        insertOutputs self.output_commitments input_ids.length t.id t.outputs.enum := by
  by_cases hlen : input_ids.length ≠ t.inputs.length
  · simp [Inclusion.insert_transition, hlen] at h
  · simp only [Inclusion.insert_transition, if_neg hlen, Except.ok.injEq] at h
    subst h
    exact ⟨rfl, rfl⟩

theorem insertAll_output_commitments {TID F G L : Type}
    [DecidableEq F] [DecidableEq TID]
    (toLeaf : Input F → Nat → L)
    (l : List (List (InputID F G) × Transition TID F))
    (s s' : Inclusion TID F G L)
    (h : insertAll toLeaf s l = Except.ok s') (x : F) :
    assocContains s'.output_commitments x = true ↔
      (assocContains s.output_commitments x = true ∨
        ∃ p ∈ l, x ∈ recordOutputs p.2) := by
  induction l generalizing s with
  | nil =>
      simp only [insertAll, Except.ok.injEq] at h
      subst h
      simp
  | cons p rest ih =>
      obtain ⟨ids, t⟩ := p
      simp only [insertAll] at h
      cases hstep : s.insert_transition toLeaf ids t with
      | error e => rw [hstep] at h; cases h
      | ok s1 =>
          rw [hstep] at h
          have hout := (insert_transition_ok s toLeaf ids t s1 hstep).2
          have h1 := ih s1 h
          rw [h1, hout, assocContains_insertOutputs_iff,
            filterMap_outputs_enum]
          simp only [List.mem_cons]
          constructor
          · rintro (⟨hc | hmem⟩ | ⟨q, hq, hxq⟩)
            · exact Or.inl hc
            · exact Or.inr ⟨(ids, t), Or.inl rfl, hmem⟩
            · exact Or.inr ⟨q, Or.inr hq, hxq⟩
          · rintro (hc | ⟨q, hq | hq, hxq⟩)
            · exact Or.inl (Or.inl hc)
            · subst hq; exact Or.inl (Or.inr hxq)
            · exact Or.inr ⟨q, hq, hxq⟩

theorem stepTasks_is_local {TID F G L : Type} [DecidableEq F]
    (prior : Inclusion TID F G L) (toLeaf : Input F → Nat → L)
    (input_ids : List (InputID F G)) (t : Transition TID F)
    (task : InputTask F G L)
    (h : task ∈ stepTasks prior toLeaf input_ids t) :
    task.is_local = assocContains prior.output_commitments task.commitment := by
  simp only [stepTasks, List.mem_filterMap] at h
  obtain ⟨p, _, heq⟩ := h
  cases hv : p.2.2 with
  | record c g sn =>
      rw [hv] at heq
      cases heq
      rfl
  | other => rw [hv] at heq; cases heq

/-- **C1.** Transitions inserted in execution order via `insert_transition`:
at step `k`, the tasks pushed for the record-typed inputs (and recorded in
`input_tasks`) carry `is_local = true` exactly when the commitment appeared
as a record output of one of the `k` transitions inserted strictly earlier
in the same transaction; in particular `is_local` is `false` for a
commitment never output earlier, including one output only by the same or
a later transition. -/
theorem insert_transition_is_local {TID F G L : Type}
    [DecidableEq F] [DecidableEq TID]
    (toLeaf : Input F → Nat → L)
    (l : List (List (InputID F G) × Transition TID F)) (k : Nat)
    (sk s' : Inclusion TID F G L)
    (ids : List (InputID F G)) (t : Transition TID F)
    (hsk : insertAll toLeaf (Inclusion.new TID F G L) (l.take k) = Except.ok sk)
    (hk : l.get? k = some (ids, t))
    (hins : sk.insert_transition toLeaf ids t = Except.ok s') :
    s'.input_tasks = assocExtend sk.input_tasks t.id (stepTasks sk toLeaf ids t)
    ∧ ∀ task ∈ stepTasks sk toLeaf ids t,
        (task.is_local = true ↔
          ∃ p ∈ l.take k, task.commitment ∈ recordOutputs p.2) := by
  refine ⟨(insert_transition_ok sk toLeaf ids t s' hins).1, ?_⟩
  intro task htask
  rw [stepTasks_is_local sk toLeaf ids t task htask]
  rw [insertAll_output_commitments toLeaf (l.take k) _ sk hsk task.commitment]
  simp [Inclusion.new, assocContains]

/-! Concrete two-transition transaction exercising `insert_transition`:
transition `0` outputs a record with commitment `5`; transition `1` consumes
records with commitments `5` (local) and `7` (never output). -/

def ex1Transition0 : Transition Nat Nat := ⟨0, [], [Output.record 5]⟩

def ex1Transition1 : Transition Nat Nat := ⟨1, [Input.record 50, Input.record 70], []⟩

def ex1InputIds : List (InputID Nat Nat) := [InputID.record 5 9 50, InputID.record 7 9 70]

def ex1Pairs : List (List (InputID Nat Nat) × Transition Nat Nat) :=
  [([], ex1Transition0), (ex1InputIds, ex1Transition1)]

def ex1Leaf : Input Nat → Nat → Nat := fun _ i => i

def ex1State1 : Inclusion Nat Nat Nat Nat := ⟨[(0, [])], [(5, (0, 0))]⟩

def ex1State2 : Inclusion Nat Nat Nat Nat :=
  ⟨[(0, []), (1, [⟨5, 9, 50, 0, true⟩, ⟨7, 9, 70, 1, false⟩])], [(5, (0, 0))]⟩

/-- Witness for C1 at the concrete two-transition transaction. -/
theorem insert_transition_is_local_witness :
    ex1State2.input_tasks =
      assocExtend ex1State1.input_tasks ex1Transition1.id
        (stepTasks ex1State1 ex1Leaf ex1InputIds ex1Transition1)
    ∧ ∀ task ∈ stepTasks ex1State1 ex1Leaf ex1InputIds ex1Transition1,
        (task.is_local = true ↔
          ∃ p ∈ ex1Pairs.take 1, task.commitment ∈ recordOutputs p.2) :=
  insert_transition_is_local ex1Leaf ex1Pairs 1 ex1State1 ex1State2
    ex1InputIds ex1Transition1 rfl (by decide) rfl

/-! ## `Inclusion::prepare_verifier_inputs` (`inclusion/mod.rs` lines 101–147)

The BHP transaction Merkle tree is abstracted: its state is the list of
appended leaves, `root` maps a leaf list to its root (`N::merkle_tree_bhp`
followed by `root()`), and `txLeaf` abstracts
`TransactionLeaf::new_execution(transition_index as u16, id).to_bits_le()`
(the `as u16` cast appears as `% 65536`). -/

/-- The rows pushed for one transition's inputs: for each
`Input::Record(serial_number, _)`, the public-input vector
`[1, global_state_root, local_state_root, serial_number]`. -/
def recordRows {F : Type} [One F] (gsr lsr : F) (inputs : List (Input F)) :
    List (List F) :=
  inputs.filterMap fun inp =>
    match inp with
    | Input.record sn => some [1, gsr, lsr, sn]
    | Input.other => none

/-- The `for (transition_index, transition)` loop of
`prepare_verifier_inputs`, with the enumeration index `i`, transition count
`n` and the running leaf list of the transaction tree made explicit: read
the current root, push a row per record input, then append this
transition's leaf unless it is the last transition. -/
def prepareLoop {TID F TL : Type} [One F] (root : List TL → F) (gsr : F)
    (txLeaf : Nat → TID → TL) (n : Nat) :
    Nat → List TL → List (Transition TID F) → List (List F)
  | _, _, [] => []
  | i, leaves, t :: rest =>
      recordRows gsr (root leaves) t.inputs ++
        prepareLoop root gsr txLeaf n (i + 1)
          (if i + 1 ≠ n then leaves ++ [txLeaf (i % 65536) t.id] else leaves) rest

/-- `Inclusion::prepare_verifier_inputs`: run the loop from an empty
transaction tree, then fail iff the batch is empty while the global state
root is the zero field element. -/
def prepare_verifier_inputs {TID F TL : Type} [DecidableEq F] [Zero F] [One F]
    (root : List TL → F) (txLeaf : Nat → TID → TL)
    (global_state_root : F) (transitions : List (Transition TID F)) :
    Except String (List (List F)) :=
  let batch := prepareLoop root global_state_root txLeaf transitions.length 0 [] transitions
  if batch.isEmpty ∧ global_state_root = 0 then
    Except.error "Inclusion expected the global state root in the execution to *not* be zero"
  else Except.ok batch

/-- The transaction-tree leaves of the transitions in `ts`, whose global
enumeration indices start at `i`. -/
def shiftLeaves {TID F TL : Type} (txLeaf : Nat → TID → TL) (i : Nat)
    (ts : List (Transition TID F)) : List TL :=
  (List.enumFrom i ts).map fun q => txLeaf (q.1 % 65536) q.2.id

/-- Stated from the spec (claim C2): one 4-element row per record-typed
input, in transition order concatenated across transitions, where the local
state root for the transition at position `j` is the root of the tree
holding exactly the leaves of the transitions strictly before `j` (the
empty tree's root when `j = 0`). -/
def verifierRowsSpec {TID F TL : Type} [One F] (root : List TL → F)
    (txLeaf : Nat → TID → TL) (gsr : F) (ts : List (Transition TID F)) :
    List (List F) :=
  ((List.enumFrom 0 ts).map fun p =>
      recordRows gsr (root (shiftLeaves txLeaf 0 (ts.take p.1))) p.2.inputs).flatten

theorem le_fst_of_mem_enumFrom {α : Type} {l : List α} {k : Nat} {p : Nat × α}
    (h : p ∈ List.enumFrom k l) : k ≤ p.1 := by
  induction l generalizing k with
  | nil => cases h
  | cons a l ih =>
      rw [show List.enumFrom k (a :: l) = (k, a) :: List.enumFrom (k + 1) l
        from rfl] at h
      rcases List.mem_cons.mp h with h2 | h2
      · subst h2; exact Nat.le_refl _
      · exact Nat.le_of_succ_le (ih h2)

theorem shiftLeaves_cons {TID F TL : Type} (txLeaf : Nat → TID → TL) (i : Nat)
    (t : Transition TID F) (l : List (Transition TID F)) :
    shiftLeaves txLeaf i (t :: l) =
      txLeaf (i % 65536) t.id :: shiftLeaves txLeaf (i + 1) l := rfl

theorem prepareLoop_eq_spec_aux {TID F TL : Type} [One F] (root : List TL → F)
    (gsr : F) (txLeaf : Nat → TID → TL) (n : Nat) :
    ∀ (ts : List (Transition TID F)) (i j : Nat) (leaves : List TL),
      i + ts.length = n →
      prepareLoop root gsr txLeaf n i leaves ts =
        ((List.enumFrom j ts).map fun p =>
            recordRows gsr
              (root (leaves ++ shiftLeaves txLeaf i (ts.take (p.1 - j))))
              p.2.inputs).flatten := by
  intro ts
  induction ts with
  | nil => intro i j leaves _; rfl
  | cons t rest ih =>
      intro i j leaves hn
      have hstep : prepareLoop root gsr txLeaf n i leaves (t :: rest) =
          recordRows gsr (root leaves) t.inputs ++
            prepareLoop root gsr txLeaf n (i + 1)
              (if i + 1 ≠ n then leaves ++ [txLeaf (i % 65536) t.id] else leaves)
              rest := rfl
      have henum : List.enumFrom j (t :: rest) =
          (j, t) :: List.enumFrom (j + 1) rest := rfl
      rw [hstep, henum, List.map_cons, List.flatten_cons]
      have htail :
          ((List.enumFrom (j + 1) rest).map fun p =>
              recordRows gsr
                (root (leaves ++ shiftLeaves txLeaf i ((t :: rest).take (p.1 - j))))
                p.2.inputs) =
            ((List.enumFrom (j + 1) rest).map fun p =>
              recordRows gsr
                (root ((leaves ++ [txLeaf (i % 65536) t.id]) ++
                  shiftLeaves txLeaf (i + 1) (rest.take (p.1 - (j + 1)))))
                p.2.inputs) := by
        refine List.map_congr_left ?_
        intro p hp
        have hjp : j + 1 ≤ p.1 := le_fst_of_mem_enumFrom hp
        have hsub : p.1 - j = (p.1 - (j + 1)) + 1 := by omega
        rw [hsub, List.take_succ_cons, shiftLeaves_cons, List.append_assoc]
        rfl
      congr 1
      · show recordRows gsr (root leaves) t.inputs =
          recordRows gsr
            (root (leaves ++ shiftLeaves txLeaf i ((t :: rest).take (j - j))))
            t.inputs
        simp [shiftLeaves, List.enumFrom]
      · rw [htail]
        cases rest with
        | nil => rfl
        | cons t2 rest2 =>
            have hne : i + 1 ≠ n := by
              simp only [List.length_cons] at hn
              omega
            have hlen : (i + 1) + (t2 :: rest2).length = n := by
              simp only [List.length_cons] at hn ⊢
              omega
            rw [if_pos hne]
            exact ih (i + 1) (j + 1) (leaves ++ [txLeaf (i % 65536) t.id]) hlen

/-- **C2.** Whenever `prepare_verifier_inputs` succeeds, it returns exactly
one 4-element row `[1, global_state_root, local_state_root, serial_number]`
per record-typed transition input, in transition order concatenated across
transitions, where the local state root for the transition at position `j`
is the root of the transaction tree holding exactly the leaves of the
strictly earlier transitions (so the empty tree's root for the first
transition, and the last transition's leaf never enters any root). -/
theorem prepare_verifier_inputs_rows {TID F TL : Type}
    [DecidableEq F] [Zero F] [One F]
    (root : List TL → F) (txLeaf : Nat → TID → TL) (gsr : F)
    (ts : List (Transition TID F))
    (h : verifierRowsSpec root txLeaf gsr ts ≠ [] ∨ gsr ≠ 0) :
    prepare_verifier_inputs root txLeaf gsr ts =
      Except.ok (verifierRowsSpec root txLeaf gsr ts) := by
  have hbatch : prepareLoop root gsr txLeaf ts.length 0 [] ts =
      verifierRowsSpec root txLeaf gsr ts := by
    rw [prepareLoop_eq_spec_aux root gsr txLeaf ts.length ts 0 0 [] (by simp)]
    rfl
  unfold prepare_verifier_inputs
  rw [hbatch]
  rcases h with h | h
  · rw [if_neg]
    intro hcond
    exact h (List.isEmpty_iff.mp hcond.1)
  · rw [if_neg]
    intro hcond
    exact h hcond.2

/-- Two record-consuming transitions for the C2 witness: ids `6` and `8`,
consuming serial numbers `3` and `4`. -/
def ex2Transitions : List (Transition Nat Nat) :=
  [⟨6, [Input.record 3], []⟩, ⟨8, [Input.record 4], []⟩]

/-- Witness for C2 with the tree root abstracted as the sum of the leaves
and the leaf of a transition as its id. -/
theorem prepare_verifier_inputs_rows_witness :
    (verifierRowsSpec (fun l : List Nat => l.sum) (fun _ tid => tid) 5
        ex2Transitions ≠ [] ∨ (5 : Nat) ≠ 0)
    ∧ prepare_verifier_inputs (fun l : List Nat => l.sum) (fun _ tid => tid) 5
        ex2Transitions =
      Except.ok (verifierRowsSpec (fun l : List Nat => l.sum) (fun _ tid => tid) 5
        ex2Transitions) :=
  ⟨Or.inl (by decide),
   prepare_verifier_inputs_rows (fun l : List Nat => l.sum) (fun _ tid => tid) 5
     ex2Transitions (Or.inl (by decide))⟩

theorem recordRows_eq_nil_iff {F : Type} [One F] (gsr lsr : F)
    (inputs : List (Input F)) :
    recordRows gsr lsr inputs = [] ↔
      ∀ inp ∈ inputs, ∀ sn, inp ≠ Input.record sn := by
  induction inputs with
  | nil => simp [recordRows]
  | cons a l ih =>
      cases a with
      | record sn =>
          have hd : recordRows gsr lsr (Input.record sn :: l) =
              [1, gsr, lsr, sn] :: recordRows gsr lsr l := rfl
          rw [hd]
          constructor
          · intro h; cases h
          · intro h
            exact absurd rfl (h (Input.record sn) (List.mem_cons_self _ _) sn)
      | other =>
          have hd : recordRows gsr lsr (Input.other :: l) =
              recordRows gsr lsr l := rfl
          rw [hd, ih]
          constructor
          · intro h inp hmem sn
            rcases List.mem_cons.mp hmem with h2 | h2
            · subst h2; intro hcontra; cases hcontra
            · exact h inp h2 sn
          · intro h inp hmem sn
            exact h inp (List.mem_cons_of_mem _ hmem) sn

theorem prepareLoop_eq_nil_iff {TID F TL : Type} [One F] (root : List TL → F)
    (gsr : F) (txLeaf : Nat → TID → TL) (n : Nat) :
    ∀ (ts : List (Transition TID F)) (i : Nat) (leaves : List TL),
      prepareLoop root gsr txLeaf n i leaves ts = [] ↔
        ∀ t ∈ ts, ∀ inp ∈ t.inputs, ∀ sn, inp ≠ Input.record sn := by
  intro ts
  induction ts with
  | nil => intro i leaves; simp [prepareLoop]
  | cons t rest ih =>
      intro i leaves
      have hstep : prepareLoop root gsr txLeaf n i leaves (t :: rest) =
          recordRows gsr (root leaves) t.inputs ++
            prepareLoop root gsr txLeaf n (i + 1)
              (if i + 1 ≠ n then leaves ++ [txLeaf (i % 65536) t.id] else leaves)
              rest := rfl
      rw [hstep, List.append_eq_nil, recordRows_eq_nil_iff, ih]
      simp [List.forall_mem_cons]

/-- Counterexample for C4 as stated: a transaction with one record-typed
input and a zero global state root, on which `prepare_verifier_inputs`
succeeds (the guard only fires when the collected public inputs are
empty). -/
theorem prepare_verifier_inputs_zero_root_counterexample :
    prepare_verifier_inputs (fun l : List Nat => l.sum) (fun _ tid => tid) 0
        ([⟨0, [Input.record 7], []⟩] : List (Transition Nat Nat)) =
      Except.ok [[1, 0, 0, 7]] := rfl

/-- **C4 (amended).** `prepare_verifier_inputs` fails exactly when the
transitions contain no record-typed input at all *and* the supplied global
state root is the zero field element; in particular a transaction with at
least one record-consuming input succeeds regardless of the global state
root, and a transaction with no record-consuming inputs succeeds whenever
the global state root is non-zero. -/
theorem prepare_verifier_inputs_error_iff {TID F TL : Type}
    [DecidableEq F] [Zero F] [One F]
    (root : List TL → F) (txLeaf : Nat → TID → TL) (gsr : F)
    (ts : List (Transition TID F)) :
    (∃ e, prepare_verifier_inputs root txLeaf gsr ts = Except.error e) ↔
      (gsr = 0 ∧ ∀ t ∈ ts, ∀ inp ∈ t.inputs, ∀ sn, inp ≠ Input.record sn) := by
  have hdef : prepare_verifier_inputs root txLeaf gsr ts =
      if (prepareLoop root gsr txLeaf ts.length 0 [] ts).isEmpty ∧ gsr = 0 then
        Except.error "Inclusion expected the global state root in the execution to *not* be zero"
      else Except.ok (prepareLoop root gsr txLeaf ts.length 0 [] ts) := rfl
  rw [hdef]
  by_cases hcond : (prepareLoop root gsr txLeaf ts.length 0 [] ts).isEmpty ∧ gsr = 0
  · rw [if_pos hcond]
    constructor
    · intro _
      exact ⟨hcond.2,
        (prepareLoop_eq_nil_iff root gsr txLeaf ts.length ts 0 []).mp
          (List.isEmpty_iff.mp hcond.1)⟩
    · intro _
      exact ⟨_, rfl⟩
  · rw [if_neg hcond]
    constructor
    · rintro ⟨e, he⟩
      cases he
    · rintro ⟨h0, hnone⟩
      exact absurd
        ⟨List.isEmpty_iff.mpr
          ((prepareLoop_eq_nil_iff root gsr txLeaf ts.length ts 0 []).mpr hnone),
         h0⟩ hcond

/-- **C7.** `insert_transition` errors whenever the number of supplied input
ids differs from the number of the transition's inputs.  The arity guard is
the first statement of the Rust method, before any mutation; in this
state-passing embedding the error return carries no new state, so the
caller's tracker state (`input_tasks` and `output_commitments`) is exactly
as before the call. -/
theorem insert_transition_length_mismatch {TID F G L : Type}
    [DecidableEq F] [DecidableEq TID]
    (s : Inclusion TID F G L) (toLeaf : Input F → Nat → L)
    (input_ids : List (InputID F G)) (t : Transition TID F)
    (h : input_ids.length ≠ t.inputs.length) :
    s.insert_transition toLeaf input_ids t =
      Except.error "Inclusion expected the same number of input IDs as transition inputs" := by
  simp [Inclusion.insert_transition, h]

/-- Witness for C7: two input ids against a transition with three inputs. -/
theorem insert_transition_length_mismatch_witness :
    ([InputID.other, InputID.other] : List (InputID Nat Nat)).length ≠
      ([Input.other, Input.other, Input.other] : List (Input Nat)).length
    ∧ (Inclusion.new Nat Nat Nat Nat).insert_transition (fun _ i => i)
        [InputID.other, InputID.other]
        ⟨0, [Input.other, Input.other, Input.other], []⟩ =
      Except.error "Inclusion expected the same number of input IDs as transition inputs" :=
  ⟨by decide,
   insert_transition_length_mismatch (Inclusion.new Nat Nat Nat Nat)
     (fun _ i => i) [InputID.other, InputID.other]
     ⟨0, [Input.other, Input.other, Input.other], []⟩ (by decide)⟩

/-! ## `InclusionAssignment::to_circuit_assignment` (`inclusion/mod.rs` lines 186–223)

The circuit environment is modelled by the trace of `Inject` calls the
method performs, each recorded with its `circuit::Mode`. -/

/-- `circuit::Mode` (only the two modes used here). -/
inductive Mode where
  | pub
  | priv
deriving DecidableEq

/-- The values `to_circuit_assignment` injects. -/
inductive InjectKind where
  | statePath
  | commitment
  | gamma
  | localStateRoot
  | isGlobal
  | serialNumber
  | globalStateRoot
deriving DecidableEq

/-- `InclusionAssignment` (`inclusion/mod.rs` lines 150–158); the state
path, field, group and transaction-id types stay abstract. -/
structure InclusionAssignment (SP F G TXID : Type) where
  state_path : SP
  commitment : F
  gamma : G
  serial_number : F
  local_state_root : TXID
  is_global : Bool

/-- The `Inject` calls of `to_circuit_assignment`, in source order with
their modes (lines 194, 196, 198, 201, 203, 206). -/
def toCircuitInjections {SP F G TXID : Type}
    (a : InclusionAssignment SP F G TXID) : List (InjectKind × Mode) :=
  [(InjectKind.statePath, Mode.priv),
   (InjectKind.commitment, Mode.priv),
   (InjectKind.gamma, Mode.priv),
   (InjectKind.localStateRoot, Mode.pub),
   (InjectKind.isGlobal, Mode.priv),
   (InjectKind.serialNumber, Mode.pub)]

/-- Modelled from the spec: the `Inject` implementation of
`circuit::StatePath` is outside this repository sample; per the source
comment at the injection site ("Inject the state path as `Mode::Private`
(with a global state root as `Mode::Public`)") and the spec, injecting the
state path injects the global state root as a public input and the rest of
the path as private witnesses. -/
def statePathInjectExpansion : List (InjectKind × Mode) :=
  [(InjectKind.globalStateRoot, Mode.pub), (InjectKind.statePath, Mode.priv)]

/-- **C3.** `to_circuit_assignment` injects the state path, the commitment,
gamma and the `is_global` flag as private witnesses, and injects exactly
`local_state_root` and `serial_number` directly as public inputs; the
global state root enters as a public input implicitly through the
state-path injection. -/
theorem to_circuit_assignment_modes {SP F G TXID : Type}
    (a : InclusionAssignment SP F G TXID) :
    ((toCircuitInjections a).filter (fun p => p.2 = Mode.priv)).map Prod.fst =
      [InjectKind.statePath, InjectKind.commitment, InjectKind.gamma,
       InjectKind.isGlobal]
    ∧ ((toCircuitInjections a).filter (fun p => p.2 = Mode.pub)).map Prod.fst =
      [InjectKind.localStateRoot, InjectKind.serialNumber]
    ∧ (InjectKind.globalStateRoot, Mode.pub) ∈ statePathInjectExpansion :=
  ⟨rfl, rfl, by decide⟩

/-! ## `Process::load_deployment` (`deploy.rs` lines 68–87) -/

/-- A program stack: its program id and the verifying keys inserted so far
(`Stack::insert_verifying_key` abstracted to recording the key). -/
structure StackM (PID Id VK : Type) where
  program_id : PID
  verifying_keys : List (Id × VK)
deriving DecidableEq

/-- The process registry of stacks. -/
structure ProcessM (PID Id VK : Type) where
  stackMap : List (PID × StackM PID Id VK)
deriving DecidableEq

/-- `Process::contains_program`. -/
def ProcessM.contains_program {PID Id VK : Type} [DecidableEq PID]
    (p : ProcessM PID Id VK) (pid : PID) : Bool :=
  p.stackMap.any fun q => q.1 = pid

/-- The error taxonomy entry the spec assigns to duplicate deployment. -/
inductive DeployError where
  | stateConflict
deriving DecidableEq

/-- Modelled from the spec: `Stack::new` is outside this repository sample;
per the spec, `load_deployment` for an already-registered program id "must
fail via the stack-construction/registration step" with a `StateConflict`
error, so constructing a stack for a program id already in the process
fails with `StateConflict`. -/
def StackM.new {PID Id VK : Type} [DecidableEq PID]
    (p : ProcessM PID Id VK) (program_id : PID) :
    Except DeployError (StackM PID Id VK) :=
  if p.contains_program program_id then Except.error DeployError.stateConflict
  else Except.ok { program_id := program_id, verifying_keys := [] }

/-- A deployment: the program id and one verifying key per function. -/
structure DeploymentM (PID Id VK : Type) where
  program_id : PID
  verifying_keys : List (Id × VK)
deriving DecidableEq

/-- `Stack::insert_verifying_key`, abstracted to recording the key. -/
def StackM.insert_verifying_key {PID Id VK : Type}
    (s : StackM PID Id VK) (fname : Id) (vk : VK) : StackM PID Id VK :=
  { s with verifying_keys := s.verifying_keys ++ [(fname, vk)] }

/-- `Process::add_stack`: register the stack under its program id. -/
def ProcessM.add_stack {PID Id VK : Type}
    (p : ProcessM PID Id VK) (s : StackM PID Id VK) : ProcessM PID Id VK :=
  { stackMap := p.stackMap ++ [(s.program_id, s)] }

/-- `Process::load_deployment` (`deploy.rs` lines 68–87): compute the
stack, insert each function's verifying key, add the stack. -/
def ProcessM.load_deployment {PID Id VK : Type} [DecidableEq PID]
    (p : ProcessM PID Id VK) (d : DeploymentM PID Id VK) :
    Except DeployError (ProcessM PID Id VK) :=
  match StackM.new p d.program_id with
  | Except.error e => Except.error e
  | Except.ok stack =>
      Except.ok (p.add_stack
        (d.verifying_keys.foldl (fun st q => st.insert_verifying_key q.1 q.2) stack))

theorem foldl_insert_vk_program_id {PID Id VK : Type} (l : List (Id × VK)) :
    ∀ s : StackM PID Id VK,
      (l.foldl (fun st q => st.insert_verifying_key q.1 q.2) s).program_id =
        s.program_id := by
  induction l with
  | nil => intro s; rfl
  | cons a l ih => intro s; rw [List.foldl_cons, ih]; rfl

/-- **C5.** For a program id not yet in the process, `load_deployment`
succeeds, and calling it a second time with the same program id fails with
`StateConflict` at the stack-construction/registration step. -/
theorem load_deployment_twice_conflict {PID Id VK : Type} [DecidableEq PID]
    (p : ProcessM PID Id VK) (d : DeploymentM PID Id VK)
    (h : p.contains_program d.program_id = false) :
    ∃ p', p.load_deployment d = Except.ok p'
      ∧ p'.load_deployment d = Except.error DeployError.stateConflict := by
  have hnew : StackM.new p d.program_id =
      Except.ok { program_id := d.program_id, verifying_keys := [] } := by
    unfold StackM.new
    rw [h]
    rfl
  refine ⟨p.add_stack
      (d.verifying_keys.foldl (fun st q => st.insert_verifying_key q.1 q.2)
        { program_id := d.program_id, verifying_keys := [] }), ?_, ?_⟩
  · unfold ProcessM.load_deployment
    rw [hnew]
  · have hpid :
        ((d.verifying_keys.foldl (fun st q => st.insert_verifying_key q.1 q.2)
          ({ program_id := d.program_id, verifying_keys := [] } :
            StackM PID Id VK))).program_id = d.program_id :=
      foldl_insert_vk_program_id d.verifying_keys _
    have hcont :
        (p.add_stack
          (d.verifying_keys.foldl (fun st q => st.insert_verifying_key q.1 q.2)
            { program_id := d.program_id, verifying_keys := [] })).contains_program
          d.program_id = true := by
      unfold ProcessM.add_stack ProcessM.contains_program
      rw [List.any_append]
      simp [hpid]
    unfold ProcessM.load_deployment StackM.new
    rw [hcont]
    rfl

/-- Witness for C5 at a concrete one-function deployment. -/
theorem load_deployment_twice_conflict_witness :
    (ProcessM.contains_program (⟨[]⟩ : ProcessM Nat Nat Nat) 7 = false)
    ∧ ∃ p', (⟨[]⟩ : ProcessM Nat Nat Nat).load_deployment ⟨7, [(0, 11)]⟩ =
          Except.ok p'
        ∧ p'.load_deployment ⟨7, [(0, 11)]⟩ =
          Except.error DeployError.stateConflict :=
  ⟨by decide,
   load_deployment_twice_conflict (⟨[]⟩ : ProcessM Nat Nat Nat) ⟨7, [(0, 11)]⟩
     (by decide)⟩

/-! ## `Command::finalize` (`finalize/command/mod.rs` lines 43–63)

The variant payloads and their `finalize` collaborators are abstract; each
sub-`finalize` threads the register state `R` and may fail with `E`; only
`Set::finalize` returns a `FinalizeOperation` (`Op`). -/

/-- The `Command` variants. -/
inductive Command (I Gt GU S : Type) where
  | instruction : I → Command I Gt GU S
  | get : Gt → Command I Gt GU S
  | getOrUse : GU → Command I Gt GU S
  | set : S → Command I Gt GU S
deriving DecidableEq

/-- `Command::finalize`: dispatch on the variant; `Instruction`, `Get` and
`GetOrUse` map their result to `None`, `Set` maps its `FinalizeOperation`
to `Some`. -/
def Command.finalize {I Gt GU S R E Op : Type}
    (instructionFinalize : I → R → Except E R)
    (getFinalize : Gt → R → Except E R)
    (getOrUseFinalize : GU → R → Except E R)
    (setFinalize : S → R → Except E (R × Op)) :
    Command I Gt GU S → R → Except E (R × Option Op)
  | Command.instruction i, r => (instructionFinalize i r).map fun r' => (r', none)
  | Command.get g, r => (getFinalize g r).map fun r' => (r', none)
  | Command.getOrUse g, r => (getOrUseFinalize g r).map fun r' => (r', none)
  | Command.set s, r => (setFinalize s r).map fun q => (q.1, some q.2)

/-- **C6.** A successful `Command::finalize` returns `Some` finalize
operation if and only if the command is the `Set` variant; for
`Instruction`, `Get` and `GetOrUse` it returns `None`. -/
theorem finalize_some_iff_set {I Gt GU S R E Op : Type}
    (instructionFinalize : I → R → Except E R)
    (getFinalize : Gt → R → Except E R)
    (getOrUseFinalize : GU → R → Except E R)
    (setFinalize : S → R → Except E (R × Op))
    (c : Command I Gt GU S) (r : R) (r' : R) (out : Option Op)
    (h : Command.finalize instructionFinalize getFinalize getOrUseFinalize
        setFinalize c r = Except.ok (r', out)) :
    out.isSome = true ↔ ∃ s, c = Command.set s := by
  cases c with
  | instruction i =>
      cases hr : instructionFinalize i r with
      | error e => rw [Command.finalize, hr] at h; cases h
      | ok r2 =>
          rw [Command.finalize, hr] at h
          cases h
          simp
  | get g =>
      cases hr : getFinalize g r with
      | error e => rw [Command.finalize, hr] at h; cases h
      | ok r2 =>
          rw [Command.finalize, hr] at h
          cases h
          simp
  | getOrUse g =>
      cases hr : getOrUseFinalize g r with
      | error e => rw [Command.finalize, hr] at h; cases h
      | ok r2 =>
          rw [Command.finalize, hr] at h
          cases h
          simp
  | set s =>
      cases hr : setFinalize s r with
      | error e => rw [Command.finalize, hr] at h; cases h
      | ok q =>
          rw [Command.finalize, hr] at h
          cases h
          simp

/-- Witness for C6 at a concrete `Set` command. -/
theorem finalize_some_iff_set_witness :
    Command.finalize (fun (i : Nat) (r : Nat) => (Except.ok (r + i) : Except Nat Nat))
        (fun (_ : Nat) (r : Nat) => (Except.ok r : Except Nat Nat))
        (fun (_ : Nat) (r : Nat) => (Except.ok r : Except Nat Nat))
        (fun (s : Nat) (r : Nat) => (Except.ok (r, s) : Except Nat (Nat × Nat)))
        (Command.set 3) 0 = Except.ok (0, some 3)
    ∧ ((some 3 : Option Nat).isSome = true ↔
        ∃ s, (Command.set 3 : Command Nat Nat Nat Nat) = Command.set s) :=
  ⟨rfl,
   finalize_some_iff_set (fun (i : Nat) (r : Nat) => (Except.ok (r + i) : Except Nat Nat))
     (fun (_ : Nat) (r : Nat) => (Except.ok r : Except Nat Nat))
     (fun (_ : Nat) (r : Nat) => (Except.ok r : Except Nat Nat))
     (fun (s : Nat) (r : Nat) => (Except.ok (r, s) : Except Nat (Nat × Nat)))
     (Command.set 3) 0 0 (some 3) rfl⟩

/-! ## `Stack::authorize` (`authorize.rs` lines 17–65)

`Request::sign` and `Stack::execute_function` are external collaborators,
passed in as oracles; values, keys, requests and responses stay abstract. -/

/-- A function declaration: name and ordered input types. -/
structure FunctionM (Id Ty : Type) where
  name : Id
  input_types : List Ty
deriving DecidableEq

/-- A program: its id and its function table. -/
structure ProgramM (PID Id Ty : Type) where
  id : PID
  functions : List (FunctionM Id Ty)
deriving DecidableEq

/-- Modelled from the spec: `Stack::get_function` is outside this
repository sample; per the spec, the function is resolved by name against
the program's function table, failing when the name is unknown. -/
def getFunction {PID Id Ty : Type} [DecidableEq Id]
    (prog : ProgramM PID Id Ty) (name : Id) :
    Except String (FunctionM Id Ty) :=
  match prog.functions.find? (fun f => f.name = name) with
  | some f => Except.ok f
  | none => Except.error "Function not found"

/-- `Stack::authorize`: check the program has functions, resolve the
function, check the input arity against the declared input types, sign the
request, run the function under the authorize call stack, and return the
authorization (the request list). -/
def authorize {PID Id Ty V Req Resp PK : Type} [DecidableEq Id]
    (sign : PK → PID → Id → List V → List Ty → Except String Req)
    (executeFunction : List Req → Except String Resp)
    (prog : ProgramM PID Id Ty) (private_key : PK) (function_name : Id)
    (inputs : List V) : Except String (List Req) :=
  if prog.functions.isEmpty then Except.error "Program has no functions"
  else
    match getFunction prog function_name with
    | Except.error e => Except.error e
    | Except.ok function =>
        if inputs.length ≠ function.input_types.length then
          Except.error "Function expects a different number of inputs"
        else
          match sign private_key prog.id function_name inputs function.input_types with
          | Except.error e => Except.error e
          | Except.ok request =>
              match executeFunction [request] with
              | Except.error e => Except.error e
              | Except.ok _ => Except.ok [request]

/-- **C8.** `authorize` fails when the program has no functions, when the
function name is unknown, and when the supplied input count differs from
the function's declared input-type arity; in the arity-mismatch case the
result is the same for every `sign` and `executeFunction` oracle, i.e. the
check fires before any cryptographic work. -/
theorem authorize_fail_cases {PID Id Ty V Req Resp PK : Type} [DecidableEq Id]
    (sign sign' : PK → PID → Id → List V → List Ty → Except String Req)
    (executeFunction executeFunction' : List Req → Except String Resp)
    (prog : ProgramM PID Id Ty) (private_key : PK) (function_name : Id)
    (inputs : List V) :
    (prog.functions = [] →
      authorize sign executeFunction prog private_key function_name inputs =
        Except.error "Program has no functions")
    ∧ (prog.functions.find? (fun f => f.name = function_name) = none →
        prog.functions ≠ [] →
        authorize sign executeFunction prog private_key function_name inputs =
          Except.error "Function not found")
    ∧ ∀ f, prog.functions.find? (fun f => f.name = function_name) = some f →
        inputs.length ≠ f.input_types.length →
        authorize sign executeFunction prog private_key function_name inputs =
          Except.error "Function expects a different number of inputs"
        ∧ authorize sign executeFunction prog private_key function_name inputs =
          authorize sign' executeFunction' prog private_key function_name inputs := by
  refine ⟨?_, ?_, ?_⟩
  · intro h
    simp [authorize, h]
  · intro hnone hne
    have hempty : prog.functions.isEmpty = false := by
      cases hfs : prog.functions with
      | nil => exact absurd hfs hne
      | cons a l => rfl
    simp [authorize, hempty, getFunction, hnone]
  · intro f hfind hlen
    have hmem : f ∈ prog.functions := List.mem_of_find?_eq_some hfind
    have hempty : prog.functions.isEmpty = false := by
      cases hfs : prog.functions with
      | nil => rw [hfs] at hmem; cases hmem
      | cons a l => rfl
    constructor
    · simp [authorize, hempty, getFunction, hfind, hlen]
    · simp [authorize, hempty, getFunction, hfind, hlen]

/-- The one-function program for the C8 witness: function `0` declares two
input types. -/
def ex8Program : ProgramM Nat Nat Nat := ⟨1, [⟨0, [10, 20]⟩]⟩

def ex8Sign : Nat → Nat → Nat → List Nat → List Nat → Except String Nat :=
  fun _ _ _ _ _ => Except.ok 0

def ex8Sign' : Nat → Nat → Nat → List Nat → List Nat → Except String Nat :=
  fun _ _ _ _ _ => Except.error "sign failed"

def ex8Exec : List Nat → Except String Nat := fun _ => Except.ok 0

/-- Witness for C8: one input supplied against a function declaring two. -/
theorem authorize_fail_cases_witness :
    ex8Program.functions.find? (fun f => f.name = 0) = some ⟨0, [10, 20]⟩
    ∧ ([99] : List Nat).length ≠ ([10, 20] : List Nat).length
    ∧ (authorize ex8Sign ex8Exec ex8Program 0 0 [99] =
        Except.error "Function expects a different number of inputs"
       ∧ authorize ex8Sign ex8Exec ex8Program 0 0 [99] =
         authorize ex8Sign' ex8Exec ex8Program 0 0 [99]) :=
  ⟨by decide, by decide,
   (authorize_fail_cases ex8Sign ex8Sign' ex8Exec ex8Exec ex8Program 0 0
     [99]).2.2 ⟨0, [10, 20]⟩ (by decide) (by decide)⟩

/-! ## `Record::to_bits_le` / `to_bits_be` (`record/to_bits.rs`)

The owner, identifier, entry and nonce bit encoders are abstract; the
`Record<A, Plaintext<A>>` and `Record<A, Ciphertext<A>>` implementations
are textually identical modulo the entry type, so a single definition
generic in the entry type embeds both. -/

/-- A record: owner, ordered data entries (insertion order preserved),
nonce. -/
structure RecordM (O Id En Nn : Type) where
  owner : O
  data : List (Id × En)
  nonce : Nn

/-- The 32 little-endian bits of `n as u32`
(`U32::constant(..).to_bits_le()`). -/
def u32ToBitsLE (n : Nat) : List Bool :=
  (List.range 32).map fun i => Nat.testBit (n % 4294967296) i

/-- Stated for comparison (claim C10): the same 32 bits in big-endian
order. -/
def u32ToBitsBE (n : Nat) : List Bool := (u32ToBitsLE n).reverse

/-- `Record::to_bits_le` (`to_bits.rs` lines 21–36 and 61–76): data bits
via `flat_map` of `[identifier bits, entry bits]` flattened, then
`owner || u32(len) || data || nonce`, all little-endian. -/
def RecordM.to_bits_le {O Id En Nn : Type}
    (ownerLE : O → List Bool) (idLE : Id → List Bool) (enLE : En → List Bool)
    (nonceLE : Nn → List Bool) (r : RecordM O Id En Nn) : List Bool :=
  let data_bits_le := ((r.data.map fun p => [idLE p.1, enLE p.2]).flatten).flatten
  let bits_le := ownerLE r.owner
  let bits_le := bits_le ++ u32ToBitsLE data_bits_le.length
  let bits_le := bits_le ++ data_bits_le
  bits_le ++ nonceLE r.nonce

/-- `Record::to_bits_be` (`to_bits.rs` lines 39–54 and 79–94): identical
shape with big-endian component encoders, except that the `u32` length
prefix is still emitted through `to_bits_le` (lines 50 and 90). -/
def RecordM.to_bits_be {O Id En Nn : Type}
    (ownerBE : O → List Bool) (idBE : Id → List Bool) (enBE : En → List Bool)
    (nonceBE : Nn → List Bool) (r : RecordM O Id En Nn) : List Bool :=
  let data_bits_be := ((r.data.map fun p => [idBE p.1, enBE p.2]).flatten).flatten
  let bits_be := ownerBE r.owner
  let bits_be := bits_be ++ u32ToBitsLE data_bits_be.length
  let bits_be := bits_be ++ data_bits_be
  bits_be ++ nonceBE r.nonce

/-- Stated from the spec (claim C9): the data component's bits are each
entry's identifier bits followed by its entry bits, in insertion order. -/
def dataBits {Id En : Type} (idB : Id → List Bool) (enB : En → List Bool)
    (data : List (Id × En)) : List Bool :=
  (data.map fun p => idB p.1 ++ enB p.2).flatten

/-- Stated for comparison (claim C10): the hypothetical component-wise
big-endian mirror of `to_bits_le`, with the `u32` length prefix also in
big-endian bit order. -/
def RecordM.to_bits_be_mirror {O Id En Nn : Type}
    (ownerBE : O → List Bool) (idBE : Id → List Bool) (enBE : En → List Bool)
    (nonceBE : Nn → List Bool) (r : RecordM O Id En Nn) : List Bool :=
  ownerBE r.owner
    ++ u32ToBitsBE (dataBits idBE enBE r.data).length
    ++ dataBits idBE enBE r.data
    ++ nonceBE r.nonce

theorem flatten_pair_flatten {α Id En : Type} (a : Id → List α) (b : En → List α)
    (l : List (Id × En)) :
    ((l.map fun p => [a p.1, b p.2]).flatten).flatten =
      (l.map fun p => a p.1 ++ b p.2).flatten := by
  induction l with
  | nil => rfl
  | cons x l ih =>
      simp only [List.map_cons, List.flatten_cons, ih, List.cons_append,
        List.nil_append, List.append_assoc]

/-- **C9.** For every record (plaintext or ciphertext state), `to_bits_le`
is the concatenation `owner || u32(bit-length of data) || data || nonce`,
with the data bits being each entry's identifier bits followed by its
entry bits, in insertion order. -/
theorem record_to_bits_le_layout {O Id En Nn : Type}
    (ownerLE : O → List Bool) (idLE : Id → List Bool) (enLE : En → List Bool)
    (nonceLE : Nn → List Bool) (r : RecordM O Id En Nn) :
    r.to_bits_le ownerLE idLE enLE nonceLE =
      ownerLE r.owner
        ++ u32ToBitsLE (dataBits idLE enLE r.data).length
        ++ dataBits idLE enLE r.data
        ++ nonceLE r.nonce := by
  unfold RecordM.to_bits_le dataBits
  rw [flatten_pair_flatten, List.append_assoc, List.append_assoc]

/-- **C10.** For every record (plaintext or ciphertext state), `to_bits_be`
emits the `u32` data-length prefix in little-endian bit order while the
owner, data and nonce components are big-endian; consequently `to_bits_be`
differs from the component-wise big-endian mirror, e.g. on a record with a
single one-bit data entry. -/
theorem record_to_bits_be_mixed_endian {O Id En Nn : Type}
    (ownerBE : O → List Bool) (idBE : Id → List Bool) (enBE : En → List Bool)
    (nonceBE : Nn → List Bool) (r : RecordM O Id En Nn) :
    (r.to_bits_be ownerBE idBE enBE nonceBE =
      ownerBE r.owner
        ++ u32ToBitsLE (dataBits idBE enBE r.data).length
        ++ dataBits idBE enBE r.data
        ++ nonceBE r.nonce)
    ∧ RecordM.to_bits_be (fun (_ : Unit) => []) (fun (_ : Unit) => [])
        (fun (_ : Unit) => [true]) (fun (_ : Unit) => [])
        ⟨(), [((), ())], ()⟩ ≠
      RecordM.to_bits_be_mirror (fun (_ : Unit) => []) (fun (_ : Unit) => [])
        (fun (_ : Unit) => [true]) (fun (_ : Unit) => [])
        ⟨(), [((), ())], ()⟩ := by
  constructor
  · unfold RecordM.to_bits_be dataBits
    rw [flatten_pair_flatten, List.append_assoc, List.append_assoc]
  · decide

end SnarkVM
